import Mathlib

/-!
Shallow embedding of the tt time-tracker core (package internal/db of
github.com/dgsb/tt) and proofs about it.

Timestamps are modelled as `Int` (Unix seconds), uuids as `Nat` drawn from a
per-store counter (the source draws random 128-bit uuids; only freshness
matters), per-replica integer ids as `Nat` drawn from the sqlite autoincrement
counter, and tag names as `String`.  Each of the six append-only event tables
of the sqlite schema (migrations/sqlite/full_schema.sql) is a list of rows in
insertion (rowid) order.  Every operation of internal/db/db.go runs in one
transaction; an error return means the transaction is rolled back, which the
embedding renders as `Except TTError Store` where an `error` result carries no
state change.
-/

namespace TT

/-- Row of the tags table: name TEXT PRIMARY KEY, created_at INTEGER. -/
structure TagRow where
  name : String
  created_at : Int
deriving DecidableEq, Repr

/-- Row of interval_start: id INTEGER PRIMARY KEY AUTOINCREMENT,
uuid TEXT UNIQUE NOT NULL, start_timestamp INTEGER NOT NULL,
created_at INTEGER NOT NULL. -/
structure StartRow where
  id : Nat
  uuid : Nat
  start_timestamp : Int
  created_at : Int
deriving DecidableEq, Repr

/-- Row of interval_stop: uuid TEXT PRIMARY KEY, start_uuid TEXT UNIQUE NOT
NULL, stop_timestamp INTEGER NOT NULL, created_at INTEGER NOT NULL. -/
structure StopRow where
  uuid : Nat
  start_uuid : Nat
  stop_timestamp : Int
  created_at : Int
deriving DecidableEq, Repr

/-- Row of interval_tombstone: uuid TEXT PRIMARY KEY, start_uuid TEXT UNIQUE
NOT NULL, created_at INTEGER NOT NULL. -/
structure TombstoneRow where
  uuid : Nat
  start_uuid : Nat
  created_at : Int
deriving DecidableEq, Repr

/-- Row of interval_tags: uuid TEXT PRIMARY KEY, interval_start_uuid TEXT NOT
NULL, tag TEXT NOT NULL, created_at INTEGER NOT NULL. -/
structure IntervalTagRow where
  uuid : Nat
  interval_start_uuid : Nat
  tag : String
  created_at : Int
deriving DecidableEq, Repr

/-- Row of interval_tags_tombstone: uuid TEXT PRIMARY KEY, interval_tag_uuid
TEXT NOT NULL, created_at INTEGER NOT NULL. -/
structure IntervalTagTombstoneRow where
  uuid : Nat
  interval_tag_uuid : Nat
  created_at : Int
deriving DecidableEq, Repr

/-- Local replica store: the six event tables plus the sync_history watermark
table, the interval_start autoincrement counter and the uuid source. -/
structure Store where
  tags : List TagRow
  interval_start : List StartRow
  interval_stop : List StopRow
  interval_tombstone : List TombstoneRow
  interval_tags : List IntervalTagRow
  interval_tags_tombstone : List IntervalTagTombstoneRow
  sync_history : List Int
  nextId : Nat
  nextUuid : Nat
deriving DecidableEq, Repr

/-- Freshly migrated empty store.  `uuidSeed` separates the uuid streams of
independent replicas (the source draws random uuids, collision-free in
practice); sqlite autoincrement ids start at 1. -/
def emptyStore (uuidSeed : Nat) : Store :=
  ⟨[], [], [], [], [], [], [], 1, uuidSeed⟩

/-- Error taxonomy of internal/db/errors.go; noRows stands for the
database/sql ErrNoRows surfaced by a Scan on an empty result. -/
inductive TTError where
  | invalidParam
  | existingOpenInterval
  | multipleOpenInterval
  | invalidStartTimestamp
  | invalidStopTimestamp
  | duplicatedIntervalTag
  | intervalTagsUnicity
  | invalidInterval
  | notFound
  | notImplemented
  | noRows
deriving DecidableEq, Repr

instance {ε α : Type} [DecidableEq ε] [DecidableEq α] : DecidableEq (Except ε α) :=
  fun x y =>
  match x, y with
  | .ok a, .ok b =>
    if h : a = b then .isTrue (by rw [h])
    else .isFalse (by intro he; cases he; exact h rfl)
  | .error a, .error b =>
    if h : a = b then .isTrue (by rw [h])
    else .isFalse (by intro he; cases he; exact h rfl)
  | .ok _, .error _ => .isFalse (by intro h; cases h)
  | .error _, .ok _ => .isFalse (by intro h; cases h)

/-- Lookup of the unique interval_stop row for a start uuid (LEFT JOIN
interval_stop ON interval_start.uuid = interval_stop.start_uuid; start_uuid is
UNIQUE). -/
def stopOf (st : Store) (u : Nat) : Option Int :=
  (st.interval_stop.find? (fun r => r.start_uuid == u)).map (fun r => r.stop_timestamp)

/-- Existence of an interval_tombstone row for a start uuid (LEFT JOIN
interval_tombstone; start_uuid is UNIQUE). -/
def hasTomb (st : Store) (u : Nat) : Bool :=
  st.interval_tombstone.any (fun r => r.start_uuid == u)

/-- Row-level predicate of the open-interval queries: no interval_stop row and
no interval_tombstone row. -/
def isOpenRow (st : Store) (r : StartRow) : Bool :=
  (stopOf st r.uuid).isNone && !hasTomb st r.uuid

/-- Open intervals in table-scan order. -/
def openIntervals (st : Store) : List StartRow :=
  st.interval_start.filter (isOpenRow st)

/-- Embedding of TimeTracker.countOpenedInterval (db.go). -/
def countOpenedInterval (st : Store) : Nat :=
  (openIntervals st).length

/-- Live (non-tombstoned) interval_start rows. -/
def liveStarts (st : Store) : List StartRow :=
  st.interval_start.filter (fun r => !hasTomb st r.uuid)

/-- Live closed intervals whose half-open range contains t: the Start
precondition query WHERE start_timestamp <= t AND stop_timestamp > t AND
interval_tombstone.uuid IS NULL (INNER JOIN interval_stop). -/
def closedContaining (st : Store) (t : Int) : List StartRow :=
  st.interval_start.filter (fun r =>
    !hasTomb st r.uuid &&
    match stopOf st r.uuid with
    | some b => decide (r.start_timestamp ≤ t) && decide (b > t)
    | none => false)

/-- Live interval_start rows with start_timestamp strictly between lo and hi:
the stop precondition query WHERE start_timestamp > ? AND start_timestamp < ?
AND interval_tombstone.uuid IS NULL. -/
def liveStartsBetween (st : Store) (lo hi : Int) : List StartRow :=
  st.interval_start.filter (fun r =>
    decide (lo < r.start_timestamp) && decide (r.start_timestamp < hi) &&
    !hasTomb st r.uuid)

/-- Per-tag INSERT INTO tags ... ON CONFLICT DO NOTHING loop shared by Start
and Tag. -/
def insertMissingTags (table : List TagRow) (names : List String) (now : Int) :
    List TagRow :=
  names.foldl
    (fun acc n => if acc.any (fun tr => tr.name == n) then acc else acc ++ [⟨n, now⟩])
    table

/-- Per-tag INSERT INTO interval_tags loop shared by Start and Continue: one
fresh-uuid row linking the new interval with each tag. -/
def linkTags (st : Store) (ivUuid : Nat) (tags : List String) (now : Int) : Store :=
  tags.foldl
    (fun acc tg =>
      { acc with
        interval_tags := acc.interval_tags ++ [⟨acc.nextUuid, ivUuid, tg, now⟩],
        nextUuid := acc.nextUuid + 1 })
    st

/-- Embedding of TimeTracker.Start (db.go): check P1 (no open interval), P2
(t not inside a live closed interval), then insert missing tags, one
interval_start row and one interval_tags row per tag. -/
def Start (st : Store) (t : Int) (tags : List String) (now : Int) :
    Except TTError Store :=
  if countOpenedInterval st ≥ 1 then .error .existingOpenInterval
  else if (closedContaining st t).length ≥ 1 then .error .invalidStartTimestamp
  else
    let newRow : StartRow := ⟨st.nextId, st.nextUuid, t, now⟩
    let st1 : Store :=
      { st with
        tags := insertMissingTags st.tags tags now,
        interval_start := st.interval_start ++ [newRow],
        nextId := st.nextId + 1,
        nextUuid := st.nextUuid + 1 }
    .ok (linkTags st1 newRow.uuid tags now)

/-- Embedding of TimeTracker.stop (db.go).  The Go signature takes a time.Time
and a duration; `none` stands for the zero time.Time.  The open-interval row is
scanned with LIMIT 1 together with count(1) over(); zero rows surface as the
sql.ErrNoRows scan error. -/
def stop (st : Store) (t : Option Int) (d : Int) (now : Int) :
    Except TTError Store :=
  if (t.isSome && d != 0) || (t.isNone && d == 0) then .error .invalidParam
  else
    match openIntervals st with
    | [] => .error .noRows
    | iv :: rest =>
      if rest.length + 1 > 1 then .error .multipleOpenInterval
      else
        let s := iv.start_timestamp
        let tv := if d != 0 then s + d else t.getD 0
        if s ≥ tv then .error .invalidStopTimestamp
        else if (liveStartsBetween st s tv).length ≥ 1 then
          .error .invalidStopTimestamp
        else
          .ok { st with
                interval_stop := st.interval_stop ++ [⟨st.nextUuid, iv.uuid, tv, now⟩],
                nextUuid := st.nextUuid + 1 }

/-- Embedding of TimeTracker.StopAt. -/
def StopAt (st : Store) (t : Option Int) (now : Int) : Except TTError Store :=
  stop st t 0 now

/-- Embedding of TimeTracker.StopFor. -/
def StopFor (st : Store) (d : Int) (now : Int) : Except TTError Store :=
  stop st none d now

/-- Embedding of TimeTracker.Delete (db.go): INSERT OR IGNORE a tombstone
whose start_uuid comes from a scalar subquery on the id.  When the id matches
no interval_start row the NOT NULL constraint on start_uuid makes OR IGNORE
drop the row; when a tombstone for that start_uuid already exists the UNIQUE
constraint does. -/
def Delete (st : Store) (id : Nat) (now : Int) : Except TTError Store :=
  match st.interval_start.find? (fun r => r.id == id) with
  | none => .ok st
  | some r =>
    if st.interval_tombstone.any (fun tb => tb.start_uuid == r.uuid) then .ok st
    else
      .ok { st with
            interval_tombstone := st.interval_tombstone ++ [⟨st.nextUuid, r.uuid, now⟩],
            nextUuid := st.nextUuid + 1 }

/-- Effective interval_tags rows of one interval: the getIntervalTags query
WHERE interval_start_uuid = ? AND interval_tags_tombstone.uuid IS NULL. -/
def effectiveTagRows (st : Store) (u : Nat) : List IntervalTagRow :=
  st.interval_tags.filter (fun tr =>
    tr.interval_start_uuid == u &&
    !(st.interval_tags_tombstone.any (fun tb => tb.interval_tag_uuid == tr.uuid)))

/-- Embedding of TimeTracker.getIntervalTags (db.go). -/
def getIntervalTags (st : Store) (u : Nat) : List String :=
  (effectiveTagRows st u).map (fun tr => tr.tag)

/-- Per-tag check-and-insert loop of TimeTracker.Tag; an error in the middle
rolls the whole transaction back, so the partial state is discarded. -/
def tagLoop (st : Store) (u : Nat) (tags : List String) (now : Int) :
    Except TTError Store :=
  match tags with
  | [] => .ok st
  | tg :: rest =>
    if ((effectiveTagRows st u).filter (fun tr => tr.tag == tg)).length ≥ 1 then
      .error .duplicatedIntervalTag
    else
      let st1 : Store :=
        { st with tags := insertMissingTags st.tags [tg] now }
      let st2 : Store :=
        { st1 with
          interval_tags := st1.interval_tags ++ [⟨st1.nextUuid, u, tg, now⟩],
          nextUuid := st1.nextUuid + 1 }
      tagLoop st2 u rest now

/-- Embedding of TimeTracker.Tag (db.go): resolve the live interval by id,
then for each tag check I4 and insert. -/
def Tag (st : Store) (id : Nat) (tags : List String) (now : Int) :
    Except TTError Store :=
  match (liveStarts st).find? (fun r => r.id == id) with
  | none => .error .noRows
  | some r => tagLoop st r.uuid tags now

/-- The to_delete CTE of TimeTracker.Untag: effective interval_tags rows of
the live interval with the given id carrying the given tag. -/
def toDelete (st : Store) (id : Nat) (tg : String) : List IntervalTagRow :=
  st.interval_tags.filter (fun tr =>
    !(st.interval_tags_tombstone.any (fun tb => tb.interval_tag_uuid == tr.uuid)) &&
    (match st.interval_start.find? (fun r => r.uuid == tr.interval_start_uuid) with
     | some r => decide (r.id = id) && !hasTomb st r.uuid
     | none => false) &&
    tr.tag == tg)

/-- The INSERT INTO interval_tags_tombstone ... SELECT uuid(), uuid, ? FROM
to_delete of TimeTracker.Untag: one fresh-uuid tombstone per selected row. -/
def untagInsert (acc : Store) (rows : List IntervalTagRow) (now : Int) : Store :=
  rows.foldl
    (fun a tr =>
      { a with
        interval_tags_tombstone :=
          a.interval_tags_tombstone ++ [⟨a.nextUuid, tr.uuid, now⟩],
        nextUuid := a.nextUuid + 1 })
    acc

/-- Per-tag tombstone-insert loop of TimeTracker.Untag. -/
def untagLoop (st : Store) (id : Nat) (tags : List String) (now : Int) : Store :=
  tags.foldl (fun acc tg => untagInsert acc (toDelete acc id tg) now) st

/-- Embedding of TimeTracker.Untag (db.go): resolve the live interval by id
(else NotFound), then tombstone every currently-effective matching tag row. -/
def Untag (st : Store) (id : Nat) (tags : List String) (now : Int) :
    Except TTError Store :=
  match (liveStarts st).find? (fun r => r.id == id) with
  | none => .error .notFound
  | some _ => .ok (untagLoop st id tags now)

/-- Output row shape of Current and List: the TaggedInterval of db.go with
the per-replica id, the uuid, the timestamps and the tag list. -/
structure TaggedInterval where
  id : Nat
  uuid : Nat
  start_timestamp : Int
  stop_timestamp : Option Int
  tags : List String
deriving DecidableEq, Repr

/-- Embedding of TimeTracker.Current (db.go).  The tag query of Current is
SELECT tag FROM interval_tags WHERE interval_start_uuid = ? and carries no
interval_tags_tombstone filter. -/
def Current (st : Store) : Option TaggedInterval :=
  match openIntervals st with
  | [] => none
  | iv :: _ =>
    some ⟨iv.id, iv.uuid, iv.start_timestamp, none,
      (st.interval_tags.filter (fun tr => tr.interval_start_uuid == iv.uuid)).map
        (fun tr => tr.tag)⟩

/-- WHERE clause of the TimeTracker.List query: live rows whose start or stop
falls in the half-open window, or which are still open. -/
def listPred (st : Store) (since untilT : Int) (r : StartRow) : Bool :=
  ((decide (since ≤ r.start_timestamp) && decide (r.start_timestamp < untilT)) ||
   (match stopOf st r.uuid with
    | some b => decide (since ≤ b) && decide (b < untilT)
    | none => false) ||
   (stopOf st r.uuid).isNone) &&
  !hasTomb st r.uuid

/-- ORDER BY start_timestamp relation of the List query. -/
def startLE (a b : StartRow) : Prop :=
  a.start_timestamp ≤ b.start_timestamp

instance : DecidableRel startLE := fun a b => Int.decLe _ _

instance : IsTotal StartRow startLE :=
  ⟨fun a b => Int.le_total a.start_timestamp b.start_timestamp⟩

instance : IsTrans StartRow startLE :=
  ⟨fun _ _ _ h1 h2 => Int.le_trans h1 h2⟩

/-- Embedding of TimeTracker.List (db.go), named ListIntervals because List
collides with the Lean builtin: filter, sort ascending by start_timestamp,
then attach the effective tags of each returned interval. -/
def ListIntervals (st : Store) (since untilT : Int) : List TaggedInterval :=
  ((st.interval_start.filter (listPred st since untilT)).insertionSort startLE).map
    (fun r => ⟨r.id, r.uuid, r.start_timestamp, stopOf st r.uuid,
               getIntervalTags st r.uuid⟩)

/-- Live interval with the greatest start_timestamp: the last_id CTE of
Continue (ORDER BY start_timestamp DESC LIMIT 1). -/
def lastLive (st : Store) : Option StartRow :=
  (liveStarts st).foldl
    (fun acc r =>
      match acc with
      | none => some r
      | some m => if m.start_timestamp < r.start_timestamp then some r else some m)
    none

/-- Continue overlap precondition query: live rows with start_timestamp <= t
AND stop_timestamp > t (NULL stop_timestamp compares false). -/
def continueOverlap (st : Store) (t : Int) : List StartRow :=
  st.interval_start.filter (fun r =>
    !hasTomb st r.uuid &&
    decide (r.start_timestamp ≤ t) &&
    match stopOf st r.uuid with
    | some b => decide (b > t)
    | none => false)

/-- Previous-interval resolution of Continue: the LEFT JOIN of the chosen live
interval with its tags, filtered to effective rows.  A live interval without
any interval_tags row yields one NULL-extended row (uuid found, no tag); a
live interval all of whose tag rows are tombstoned yields no row at all, so
the scanned uuid stays empty and Continue reports NotFound. -/
def resolvePrev (st : Store) (id : Option Nat) : Option (Nat × List String) :=
  let target : Option StartRow :=
    match id with
    | none => lastLive st
    | some i => (liveStarts st).find? (fun r => r.id == i)
  match target with
  | none => none
  | some r =>
    if (st.interval_tags.filter (fun tr => tr.interval_start_uuid == r.uuid)).isEmpty
    then some (r.uuid, [])
    else
      match effectiveTagRows st r.uuid with
      | [] => none
      | eff => some (r.uuid, eff.map (fun tr => tr.tag))

/-- Embedding of TimeTracker.Continue (db.go): an existing open interval is
reported with the MultipleOpenInterval error value, then the Start P2 check,
then previous-interval resolution, then insertion of the new interval_start
and duplicated interval_tags rows. -/
def Continue (st : Store) (t : Int) (id : Option Nat) (now : Int) :
    Except TTError Store :=
  if countOpenedInterval st ≥ 1 then .error .multipleOpenInterval
  else if (continueOverlap st t).length ≥ 1 then .error .invalidStartTimestamp
  else
    match resolvePrev st id with
    | none => .error .notFound
    | some (_, tags) =>
      let newRow : StartRow := ⟨st.nextId, st.nextUuid, t, now⟩
      let st1 : Store :=
        { st with
          interval_start := st.interval_start ++ [newRow],
          nextId := st.nextId + 1,
          nextUuid := st.nextUuid + 1 }
      .ok (linkTags st1 newRow.uuid tags now)

/-- Embedding of TimeTracker.Vacuum (db.go). -/
def Vacuum (st : Store) (before : Int) : Except TTError Store :=
  .error .notImplemented

/-- Row of the relay interval_start table (postgres dialect,
migrations/postgres/02: uuid TEXT PRIMARY KEY, start_timestamp, created_at);
the relay table has no per-replica id column. -/
structure RelayStartRow where
  uuid : Nat
  start_timestamp : Int
  created_at : Int
deriving DecidableEq, Repr

/-- Relay store: the six event tables in the relay dialect.  The sync_history
table used during a round is a TEMP table scoped to the transaction, so it is
not part of the persistent relay state. -/
structure RelayStore where
  tags : List TagRow
  interval_start : List RelayStartRow
  interval_stop : List StopRow
  interval_tombstone : List TombstoneRow
  interval_tags : List IntervalTagRow
  interval_tags_tombstone : List IntervalTagTombstoneRow
deriving DecidableEq, Repr

/-- Empty relay store. -/
def emptyRelay : RelayStore := ⟨[], [], [], [], [], []⟩

/-- SELECT max(sync_timestamp) FROM sync_history; NULL on an empty table. -/
def maxHist (hist : List Int) : Option Int :=
  hist.foldl
    (fun acc v =>
      match acc with
      | none => some v
      | some m => some (max m v))
    none

/-- The last_sync join condition of every getNew* query:
last_timestamp IS NULL OR created_at >= last_timestamp. -/
def newSince (hist : List Int) (created : Int) : Bool :=
  match maxHist hist with
  | none => true
  | some w => decide (created ≥ w)

/-- Access to the created_at column, shared by the ORDER BY created_at
embeddings of the getNew* queries. -/
class CreatedAt (α : Type) where
  createdAt : α → Int

instance : CreatedAt TagRow := ⟨fun r => r.created_at⟩

instance : CreatedAt StartRow := ⟨fun r => r.created_at⟩

instance : CreatedAt RelayStartRow := ⟨fun r => r.created_at⟩

instance : CreatedAt StopRow := ⟨fun r => r.created_at⟩

instance : CreatedAt TombstoneRow := ⟨fun r => r.created_at⟩

instance : CreatedAt IntervalTagRow := ⟨fun r => r.created_at⟩

instance : CreatedAt IntervalTagTombstoneRow := ⟨fun r => r.created_at⟩

/-- ORDER BY created_at relation of the getNew* queries. -/
def createdLE {α : Type} [CreatedAt α] (a b : α) : Prop :=
  CreatedAt.createdAt a ≤ CreatedAt.createdAt b

instance {α : Type} [CreatedAt α] : DecidableRel (createdLE (α := α)) :=
  fun a b => Int.decLe _ _

instance {α : Type} [CreatedAt α] : IsTotal α createdLE :=
  ⟨fun a b => Int.le_total (CreatedAt.createdAt a) (CreatedAt.createdAt b)⟩

instance {α : Type} [CreatedAt α] : IsTrans α createdLE :=
  ⟨fun _ _ _ h1 h2 => Int.le_trans h1 h2⟩

/-- ORDER BY created_at, name relation of getNewTags. -/
def tagRowLE (a b : TagRow) : Prop :=
  a.created_at < b.created_at ∨ (a.created_at = b.created_at ∧ a.name ≤ b.name)

instance : DecidableRel tagRowLE := fun _ _ => inferInstanceAs (Decidable (_ ∨ _))

instance : IsTotal TagRow tagRowLE := by
  constructor
  intro a b
  rcases lt_trichotomy a.created_at b.created_at with h | h | h
  · exact Or.inl (Or.inl h)
  · rcases le_total a.name b.name with hn | hn
    · exact Or.inl (Or.inr ⟨h, hn⟩)
    · exact Or.inr (Or.inr ⟨h.symm, hn⟩)
  · exact Or.inr (Or.inl h)

instance : IsTrans TagRow tagRowLE := by
  constructor
  intro a b c hab hbc
  rcases hab with h1 | ⟨h1, h1n⟩
  · rcases hbc with h2 | ⟨h2, _⟩
    · exact Or.inl (h1.trans h2)
    · exact Or.inl (h2 ▸ h1)
  · rcases hbc with h2 | ⟨h2, h2n⟩
    · exact Or.inl (h1 ▸ h2)
    · exact Or.inr ⟨h1.trans h2, h1n.trans h2n⟩

/-- Embedding of getNewTags (syncer.go): names created at or after the
watermark, ordered by created_at then name. -/
def getNewTags (hist : List Int) (table : List TagRow) : List String :=
  ((table.filter (fun tr => newSince hist tr.created_at)).insertionSort tagRowLE).map
    (fun tr => tr.name)

/-- Embedding of storeNewTags (syncer.go): INSERT ... ON CONFLICT DO NOTHING
on the name primary key, with created_at = now. -/
def storeNewTags (table : List TagRow) (names : List String) (now : Int) :
    List TagRow :=
  names.foldl
    (fun acc n => if acc.any (fun tr => tr.name == n) then acc else acc ++ [⟨n, now⟩])
    table

/-- Embedding of getNewIntervalStart (syncer.go) run on the local store. -/
def getNewIntervalStartL (hist : List Int) (rows : List StartRow) :
    List RelayStartRow :=
  ((rows.filter (fun r => newSince hist r.created_at)).insertionSort createdLE).map
    (fun r => ⟨r.uuid, r.start_timestamp, r.created_at⟩)

/-- Embedding of getNewIntervalStart (syncer.go) run on the relay. -/
def getNewIntervalStartR (hist : List Int) (rows : List RelayStartRow) :
    List RelayStartRow :=
  (rows.filter (fun r => newSince hist r.created_at)).insertionSort createdLE

/-- Embedding of storeNewIntervalStart (syncer.go) into the local store: ON
CONFLICT DO NOTHING on the UNIQUE uuid, created_at = now, autoincrement id. -/
def storeNewIntervalStartL (st : Store) (rows : List RelayStartRow) (now : Int) :
    Store :=
  rows.foldl
    (fun acc r =>
      if acc.interval_start.any (fun x => x.uuid == r.uuid) then acc
      else
        { acc with
          interval_start := acc.interval_start ++ [⟨acc.nextId, r.uuid, r.start_timestamp, now⟩],
          nextId := acc.nextId + 1 })
    st

/-- Embedding of storeNewIntervalStart (syncer.go) into the relay. -/
def storeNewIntervalStartR (table : List RelayStartRow) (rows : List RelayStartRow)
    (now : Int) : List RelayStartRow :=
  rows.foldl
    (fun acc r =>
      if acc.any (fun x => x.uuid == r.uuid) then acc
      else acc ++ [⟨r.uuid, r.start_timestamp, now⟩])
    table

/-- Embedding of getNewIntervalStop (syncer.go). -/
def getNewIntervalStop (hist : List Int) (rows : List StopRow) : List StopRow :=
  (rows.filter (fun r => newSince hist r.created_at)).insertionSort createdLE

/-- Embedding of storeNewIntervalStop (syncer.go): ON CONFLICT DO NOTHING
covers both the uuid primary key and the UNIQUE start_uuid. -/
def storeNewIntervalStop (table : List StopRow) (rows : List StopRow) (now : Int) :
    List StopRow :=
  rows.foldl
    (fun acc r =>
      if acc.any (fun x => x.uuid == r.uuid || x.start_uuid == r.start_uuid) then acc
      else acc ++ [⟨r.uuid, r.start_uuid, r.stop_timestamp, now⟩])
    table

/-- Embedding of getNewIntervalTombstone (syncer.go). -/
def getNewIntervalTombstone (hist : List Int) (rows : List TombstoneRow) :
    List TombstoneRow :=
  (rows.filter (fun r => newSince hist r.created_at)).insertionSort createdLE

/-- Embedding of storeNewIntervalTombstone (syncer.go): ON CONFLICT DO NOTHING
covers both the uuid primary key and the UNIQUE start_uuid. -/
def storeNewIntervalTombstone (table : List TombstoneRow) (rows : List TombstoneRow)
    (now : Int) : List TombstoneRow :=
  rows.foldl
    (fun acc r =>
      if acc.any (fun x => x.uuid == r.uuid || x.start_uuid == r.start_uuid) then acc
      else acc ++ [⟨r.uuid, r.start_uuid, now⟩])
    table

/-- Embedding of getNewIntervalTags (syncer.go). -/
def getNewIntervalTags (hist : List Int) (rows : List IntervalTagRow) :
    List IntervalTagRow :=
  (rows.filter (fun r => newSince hist r.created_at)).insertionSort createdLE

/-- Embedding of storeNewIntervalTags (syncer.go): ON CONFLICT DO NOTHING on
the uuid primary key. -/
def storeNewIntervalTags (table : List IntervalTagRow) (rows : List IntervalTagRow)
    (now : Int) : List IntervalTagRow :=
  rows.foldl
    (fun acc r =>
      if acc.any (fun x => x.uuid == r.uuid) then acc
      else acc ++ [⟨r.uuid, r.interval_start_uuid, r.tag, now⟩])
    table

/-- Embedding of getNewIntervalTagsTombstone (syncer.go). -/
def getNewIntervalTagsTombstone (hist : List Int)
    (rows : List IntervalTagTombstoneRow) : List IntervalTagTombstoneRow :=
  (rows.filter (fun r => newSince hist r.created_at)).insertionSort createdLE

/-- Embedding of storeNewIntervalTagsTombstone (syncer.go): ON CONFLICT DO
NOTHING on the uuid primary key. -/
def storeNewIntervalTagsTombstone (table : List IntervalTagTombstoneRow)
    (rows : List IntervalTagTombstoneRow) (now : Int) :
    List IntervalTagTombstoneRow :=
  rows.foldl
    (fun acc r =>
      if acc.any (fun x => x.uuid == r.uuid) then acc
      else acc ++ [⟨r.uuid, r.interval_tag_uuid, now⟩])
    table

/-- Embedding of TimeTracker.Sync (syncer.go).  The local watermark is read
once and copied into the relay TEMP sync_history; the six tables are then
exchanged in a fixed order, reading both sides of each table before writing
either.  The function returns the final pair of stores; the trailing comment
of the source (Store the last sync timestamp) is followed by no statement, so
the local sync_history is never extended. -/
def Sync (st0 : Store) (re0 : RelayStore) (now : Int) :
    Except TTError (Store × RelayStore) :=
  let lastSync := maxHist st0.sync_history
  let rHist : List Int :=
    match lastSync with
    | none => []
    | some v => [v]
  let newLTags := getNewTags st0.sync_history st0.tags
  let newRTags := getNewTags rHist re0.tags
  let st1 : Store := { st0 with tags := storeNewTags st0.tags newRTags now }
  let re1 : RelayStore := { re0 with tags := storeNewTags re0.tags newLTags now }
  let newLStart := getNewIntervalStartL st1.sync_history st1.interval_start
  let newRStart := getNewIntervalStartR rHist re1.interval_start
  let st2 : Store := storeNewIntervalStartL st1 newRStart now
  let re2 : RelayStore := { re1 with
               interval_start := storeNewIntervalStartR re1.interval_start newLStart now }
  let newLStop := getNewIntervalStop st2.sync_history st2.interval_stop
  let newRStop := getNewIntervalStop rHist re2.interval_stop
  let st3 : Store := { st2 with interval_stop := storeNewIntervalStop st2.interval_stop newRStop now }
  let re3 : RelayStore := { re2 with interval_stop := storeNewIntervalStop re2.interval_stop newLStop now }
  let newLTomb := getNewIntervalTombstone st3.sync_history st3.interval_tombstone
  let newRTomb := getNewIntervalTombstone rHist re3.interval_tombstone
  let st4 : Store := { st3 with
               interval_tombstone := storeNewIntervalTombstone st3.interval_tombstone newRTomb now }
  let re4 : RelayStore := { re3 with
               interval_tombstone := storeNewIntervalTombstone re3.interval_tombstone newLTomb now }
  let newLIt := getNewIntervalTags st4.sync_history st4.interval_tags
  let newRIt := getNewIntervalTags rHist re4.interval_tags
  let st5 : Store := { st4 with interval_tags := storeNewIntervalTags st4.interval_tags newRIt now }
  let re5 : RelayStore := { re4 with interval_tags := storeNewIntervalTags re4.interval_tags newLIt now }
  let newLItt := getNewIntervalTagsTombstone st5.sync_history st5.interval_tags_tombstone
  let newRItt := getNewIntervalTagsTombstone rHist re5.interval_tags_tombstone
  let st6 : Store := { st5 with
               interval_tags_tombstone :=
                 storeNewIntervalTagsTombstone st5.interval_tags_tombstone newRItt now }
  let re6 : RelayStore := { re5 with
               interval_tags_tombstone :=
                 storeNewIntervalTagsTombstone re5.interval_tags_tombstone newLItt now }
  .ok (st6, re6)

/-- Extract the store of a successful operation, with a fallback for the
error case (used only to name concrete scenario states). -/
def okOr (e : Except TTError Store) (dflt : Store) : Store :=
  match e with
  | .ok s => s
  | .error _ => dflt

/-- Extract the store pair of a successful sync, with a fallback. -/
def syncOk (e : Except TTError (Store × RelayStore)) : Store × RelayStore :=
  match e with
  | .ok p => p
  | .error _ => (emptyStore 0, emptyRelay)

/-- Store holding one Open tagged interval: start(1970-01-01 00:00:00Z,
[tag1]) on a fresh replica. -/
def openTagStore : Store :=
  okOr (Start (emptyStore 0) 0 ["tag1"] 5) (emptyStore 0)

/-- The openTagStore after untag(1, [tag1]): its single IntervalTag is now
shadowed by an IntervalTagTombstone while the interval is still Open. -/
def untaggedOpenStore : Store :=
  okOr (Untag openTagStore 1 ["tag1"] 6) (emptyStore 0)

/-- Scenario S1, first step: start(2022-02-25 13:30:00Z). -/
def s1Store1 : Store :=
  okOr (Start (emptyStore 0) 1645795800 [] 10) (emptyStore 0)

/-- Scenario S1, second step: stop(2022-02-25 14:30:00Z). -/
def s1Store2 : Store :=
  okOr (StopAt s1Store1 (some 1645799400) 11) (emptyStore 0)

/-- Scenario S1, third step: start(2022-02-25 12:00:00Z). -/
def s1Store3 : Store :=
  okOr (Start s1Store2 1645790400 [] 12) (emptyStore 0)

/-- Scenario S5 replica A after start(T-4h, [tag1]), stop(T-3h), with T = 0. -/
def s5A : Store :=
  okOr (StopAt (okOr (Start (emptyStore 0) (-14400) ["tag1"] 100) (emptyStore 0))
          (some (-10800)) 101)
    (emptyStore 0)

/-- Scenario S5 replica B after start(T-2h, [tag2]), stop(T-1h), with T = 0
and a disjoint uuid stream. -/
def s5B : Store :=
  okOr (StopAt (okOr (Start (emptyStore 1000) (-7200) ["tag2"] 102) (emptyStore 1000))
          (some (-3600)) 103)
    (emptyStore 1000)

/-- Scenario S5 first sync round: A.sync against an empty relay. -/
def s5Round1 : Store × RelayStore := syncOk (Sync s5A emptyRelay 200)

/-- Scenario S5 second sync round: B.sync against the relay left by round 1. -/
def s5Round2 : Store × RelayStore := syncOk (Sync s5B s5Round1.2 201)

/-- Scenario S5 third sync round: A.sync again. -/
def s5Round3 : Store × RelayStore := syncOk (Sync s5Round1.1 s5Round2.2 202)

/-- Projection of a listed interval that drops the per-replica id, as the
convergence scenario compares replicas. -/
def projectId (ti : TaggedInterval) : Nat × Int × Option Int × List String :=
  (ti.uuid, ti.start_timestamp, ti.stop_timestamp, ti.tags)

/-- Result of syncing a store holding an Open interval against an empty
relay. -/
def c4Res : Store × RelayStore := syncOk (Sync openTagStore emptyRelay 100)

/-- Committed Interval-Engine operations of the local store. -/
inductive Op where
  | opStart (t : Int) (tags : List String)
  | opStopAt (t : Option Int)
  | opStopFor (d : Int)
  | opContinue (t : Int) (id : Option Nat)
  | opTag (id : Nat) (tags : List String)
  | opUntag (id : Nat) (tags : List String)
  | opDelete (id : Nat)

/-- Dispatch of an Op to the corresponding engine operation. -/
def applyOp (st : Store) (op : Op) (now : Int) : Except TTError Store :=
  match op with
  | .opStart t tags => Start st t tags now
  | .opStopAt t => StopAt st t now
  | .opStopFor d => StopFor st d now
  | .opContinue t id => Continue st t id now
  | .opTag id tags => Tag st id tags now
  | .opUntag id tags => Untag st id tags now
  | .opDelete id => Delete st id now

/-- Stores reachable from a freshly migrated replica through committed
(successful) Interval-Engine operations. -/
inductive Reachable : Store → Prop where
  | init (seed : Nat) : Reachable (emptyStore seed)
  | step {st st2 : Store} (op : Op) (now : Int) :
      Reachable st → applyOp st op now = .ok st2 → Reachable st2

/-- Live closed interval: a non-tombstoned interval_start row together with
its unique stop timestamp. -/
def LiveClosed (st : Store) (r : StartRow) (b : Int) : Prop :=
  r ∈ st.interval_start ∧ hasTomb st r.uuid = false ∧ stopOf st r.uuid = some b

/-- Inductive invariant of the local store: the three global timeline
invariants I1, I2, I3 together with the auxiliary facts the induction
needs (the start of an Open interval lies in no live closed interval, and
every uuid-valued column stays below the uuid source). -/
structure InvFull (st : Store) : Prop where
  open_le_one : countOpenedInterval st ≤ 1
  start_lt_stop : ∀ r b, LiveClosed st r b → r.start_timestamp < b
  no_overlap : ∀ r1 b1 r2 b2, LiveClosed st r1 b1 → LiveClosed st r2 b2 →
    r1.uuid ≠ r2.uuid → b1 ≤ r2.start_timestamp ∨ b2 ≤ r1.start_timestamp
  open_not_in_closed : ∀ o, o ∈ openIntervals st → ∀ r b, LiveClosed st r b →
    ¬(r.start_timestamp ≤ o.start_timestamp ∧ o.start_timestamp < b)
  start_uuid_lt : ∀ r ∈ st.interval_start, r.uuid < st.nextUuid
  stop_uuid_lt : ∀ s ∈ st.interval_stop, s.start_uuid < st.nextUuid
  tomb_uuid_lt : ∀ tb ∈ st.interval_tombstone, tb.start_uuid < st.nextUuid

theorem stopOf_eq_of_stops {st st2 : Store} (h : st2.interval_stop = st.interval_stop)
    (u : Nat) : stopOf st2 u = stopOf st u := by
  simp [stopOf, h]

theorem hasTomb_eq_of_tombs {st st2 : Store}
    (h : st2.interval_tombstone = st.interval_tombstone) (u : Nat) :
    hasTomb st2 u = hasTomb st u := by
  simp [hasTomb, h]

theorem storeNewIntervalStartL_sync_history (rows : List RelayStartRow) (st : Store)
    (now : Int) : (storeNewIntervalStartL st rows now).sync_history = st.sync_history := by
  induction rows generalizing st with
  | nil => rfl
  | cons r rest ih =>
    show (storeNewIntervalStartL _ rest now).sync_history = _
    rw [ih]
    by_cases h : (st.interval_start.any fun x => x.uuid == r.uuid) = true
    · simp [h]
    · simp [h]

/-- C10: delete(id) with an id matching no interval_start row returns success
and leaves the store unchanged (the INSERT OR IGNORE drops the tombstone row
whose NOT NULL start_uuid would be NULL). -/
theorem delete_missing_id_noop (st : Store) (id : Nat) (now : Int)
    (h : st.interval_start.find? (fun r => r.id == id) = none) :
    Delete st id now = .ok st := by
  unfold Delete
  rw [h]

theorem delete_missing_id_noop_witness :
    (emptyStore 0).interval_start.find? (fun r => r.id == 3) = none ∧
    Delete (emptyStore 0) 3 7 = .ok (emptyStore 0) :=
  ⟨rfl, delete_missing_id_noop (emptyStore 0) 3 7 rfl⟩

/-- C9 counterexample: on a store holding exactly one Open interval, Continue
fails with the MultipleOpenInterval error value, which is not the
ExistingOpenInterval kind the claim names. -/
theorem continue_error_kind_cex :
    countOpenedInterval openTagStore = 1 ∧
    Continue openTagStore 100 none 50 = .error .multipleOpenInterval ∧
    TTError.multipleOpenInterval ≠ TTError.existingOpenInterval := by
  decide

/-- C9 amended: continue(t, id) checks the open-interval precondition first
and fails whenever an Open interval exists, with no rows inserted, but the
returned error is of the MultipleOpenInterval kind. -/
theorem continue_open_reports_multiple (st : Store) (t : Int) (id : Option Nat)
    (now : Int) (h : 1 ≤ countOpenedInterval st) :
    Continue st t id now = .error .multipleOpenInterval := by
  unfold Continue
  rw [if_pos h]

theorem continue_open_reports_multiple_witness :
    1 ≤ countOpenedInterval openTagStore ∧
    Continue openTagStore 100 none 50 = .error .multipleOpenInterval :=
  ⟨by decide, continue_open_reports_multiple openTagStore 100 none 50 (by decide)⟩

/-- C8 counterexample: after start(0, [tag1]) and untag(1, [tag1]) the single
interval is still Open, its only IntervalTag is shadowed by an
IntervalTagTombstone (its Effective tag set is empty), yet Current still
returns that tag. -/
theorem current_effective_tags_cex :
    openIntervals untaggedOpenStore = [⟨1, 0, 0, 5⟩] ∧
    Current untaggedOpenStore = some ⟨1, 0, 0, none, ["tag1"]⟩ ∧
    getIntervalTags untaggedOpenStore 0 = [] := by
  decide

/-- C8 amended: current() returns null (with no error) when no Open interval
exists, and otherwise returns the single Open interval together with all of
its IntervalTags, tombstoned ones included; it fails only on infrastructural
error. -/
theorem current_spec (st : Store) :
    (openIntervals st = [] → Current st = none) ∧
    (∀ iv, openIntervals st = [iv] →
      Current st = some ⟨iv.id, iv.uuid, iv.start_timestamp, none,
        (st.interval_tags.filter (fun tr => tr.interval_start_uuid == iv.uuid)).map
          (fun tr => tr.tag)⟩) := by
  constructor
  · intro h
    unfold Current
    rw [h]
  · intro iv h
    unfold Current
    rw [h]

theorem current_spec_witness :
    openIntervals untaggedOpenStore = [⟨1, 0, 0, 5⟩] ∧
    Current untaggedOpenStore = some ⟨1, 0, 0, none, ["tag1"]⟩ :=
  ⟨by decide, (current_spec untaggedOpenStore).2 ⟨1, 0, 0, 5⟩ (by decide)⟩

/-- C3: every sync round returns successfully with the local sync_history
unchanged; the watermark append announced by the trailing comment of
TimeTracker.Sync is missing, so max(sync_timestamp) never becomes the round's
now. -/
theorem sync_does_not_advance_watermark (st : Store) (re : RelayStore) (now : Int) :
    ∃ st2 re2, Sync st re now = .ok (st2, re2) ∧ st2.sync_history = st.sync_history := by
  refine ⟨_, _, rfl, ?_⟩
  simp [Sync, storeNewIntervalStartL_sync_history]

theorem newSince_nil (c : Int) : newSince [] c = true := rfl

theorem mem_getNewIntervalStartL {r : StartRow} {rows : List StartRow} (h : r ∈ rows) :
    (⟨r.uuid, r.start_timestamp, r.created_at⟩ : RelayStartRow) ∈
      getNewIntervalStartL [] rows := by
  unfold getNewIntervalStartL
  apply List.mem_map_of_mem
  rw [(List.perm_insertionSort createdLE _).mem_iff]
  exact List.mem_filter.mpr ⟨h, by rw [newSince_nil]⟩

theorem storeNewIntervalStartR_any_mono (rows : List RelayStartRow)
    (table : List RelayStartRow) (now : Int) (u : Nat)
    (h : table.any (fun x => x.uuid == u) = true) :
    (storeNewIntervalStartR table rows now).any (fun x => x.uuid == u) = true := by
  induction rows generalizing table with
  | nil => exact h
  | cons r rest ih =>
    show (storeNewIntervalStartR _ rest now).any _ = true
    refine ih _ ?_
    by_cases hc : (table.any fun x => x.uuid == r.uuid) = true
    · simpa [hc] using h
    · simp only [hc]
      simp [List.any_append, h]

theorem storeNewIntervalStartR_covers (rows : List RelayStartRow)
    (table : List RelayStartRow) (now : Int) (u : Nat) (h : ∃ x ∈ rows, x.uuid = u) :
    (storeNewIntervalStartR table rows now).any (fun x => x.uuid == u) = true := by
  induction rows generalizing table with
  | nil => rcases h with ⟨x, hx, _⟩; cases hx
  | cons r rest ih =>
    rcases h with ⟨x, hx, hxu⟩
    rcases List.mem_cons.mp hx with heq | hmem
    · subst heq
      subst hxu
      show (storeNewIntervalStartR _ rest now).any _ = true
      apply storeNewIntervalStartR_any_mono
      by_cases hc : (table.any fun y => y.uuid == x.uuid) = true
      · simp [hc]
      · simp only [hc]
        simp [List.any_append]
    · show (storeNewIntervalStartR _ rest now).any _ = true
      exact ih _ ⟨x, hmem, hxu⟩

/-- C4 amended: Sync performs no Open-interval check at all; on a
never-synced replica it proceeds normally regardless of any Open interval,
copying every local interval_start row (open ones included) to the relay, and
completes successfully. -/
theorem sync_proceeds_with_open_interval (st : Store) (re : RelayStore) (now : Int)
    (h : st.sync_history = []) :
    ∃ st2 re2, Sync st re now = .ok (st2, re2) ∧
      ∀ r ∈ st.interval_start,
        re2.interval_start.any (fun x => x.uuid == r.uuid) = true := by
  refine ⟨_, _, rfl, ?_⟩
  intro r hr
  show (storeNewIntervalStartR _ (getNewIntervalStartL st.sync_history st.interval_start)
          now).any _ = true
  rw [h]
  exact storeNewIntervalStartR_covers _ _ now r.uuid
    ⟨⟨r.uuid, r.start_timestamp, r.created_at⟩, mem_getNewIntervalStartL hr, rfl⟩

/-- C4 counterexample: on a local store holding one Open interval, Sync does
not return the ExistingOpenInterval refusal; it succeeds and changes the
relay, copying the open interval over. -/
theorem sync_open_interval_cex :
    countOpenedInterval openTagStore = 1 ∧
    Sync openTagStore emptyRelay 100 = .ok c4Res ∧
    c4Res.2.interval_start ≠ [] := by
  decide

theorem sync_proceeds_with_open_interval_witness :
    openTagStore.sync_history = [] ∧
    ∃ st2 re2, Sync openTagStore emptyRelay 100 = .ok (st2, re2) ∧
      ∀ r ∈ openTagStore.interval_start,
        re2.interval_start.any (fun x => x.uuid == r.uuid) = true :=
  ⟨rfl, sync_proceeds_with_open_interval openTagStore emptyRelay 100 rfl⟩

/-- C5: with exactly one Open interval of start timestamp s, stop-at(t)
returns InvalidStopTimestamp whenever t ≤ s, stop-for(d) (which computes
t = s + d; a supplied duration is nonzero) does the same, both also fail with
InvalidStopTimestamp when a Live IntervalStart lies strictly between s and t,
and in those cases the transaction is rolled back so no IntervalStop row is
inserted; the final conjunct replays scenario S1, whose second stop returns
InvalidStopTimestamp. -/
theorem stop_invalid_timestamp (st : Store) (iv : StartRow) (now : Int)
    (h : openIntervals st = [iv]) :
    (∀ t : Int, t ≤ iv.start_timestamp →
       StopAt st (some t) now = .error .invalidStopTimestamp) ∧
    (∀ d : Int, d ≠ 0 → iv.start_timestamp + d ≤ iv.start_timestamp →
       StopFor st d now = .error .invalidStopTimestamp) ∧
    (∀ t : Int, liveStartsBetween st iv.start_timestamp t ≠ [] →
       StopAt st (some t) now = .error .invalidStopTimestamp) ∧
    (∀ d : Int, d ≠ 0 →
       liveStartsBetween st iv.start_timestamp (iv.start_timestamp + d) ≠ [] →
       StopFor st d now = .error .invalidStopTimestamp) ∧
    (Start (emptyStore 0) 1645795800 [] 10 = .ok s1Store1 ∧
     StopAt s1Store1 (some 1645799400) 11 = .ok s1Store2 ∧
     Start s1Store2 1645790400 [] 12 = .ok s1Store3 ∧
     StopAt s1Store3 (some 1645797600) 13 = .error .invalidStopTimestamp) := by
  refine ⟨?_, ?_, ?_, ?_, by decide, by decide, by decide, by decide⟩
  · intro t ht
    unfold StopAt stop
    rw [h]
    show (if iv.start_timestamp ≥ t then
            (Except.error TTError.invalidStopTimestamp : Except TTError Store)
          else if (liveStartsBetween st iv.start_timestamp t).length ≥ 1 then
            Except.error TTError.invalidStopTimestamp
          else _) = Except.error TTError.invalidStopTimestamp
    rw [if_pos ht]
  · intro d hd hle
    unfold StopFor stop
    rw [h]
    rw [if_neg (by simp [hd])]
    have hbne : (d != 0) = true := bne_iff_ne.mpr hd
    simp only [hbne, if_true]
    show (if iv.start_timestamp ≥ iv.start_timestamp + d then
            (Except.error TTError.invalidStopTimestamp : Except TTError Store)
          else if (liveStartsBetween st iv.start_timestamp (iv.start_timestamp + d)).length ≥ 1 then
            Except.error TTError.invalidStopTimestamp
          else _) = Except.error TTError.invalidStopTimestamp
    rw [if_pos hle]
  · intro t hne
    unfold StopAt stop
    rw [h]
    show (if iv.start_timestamp ≥ t then
            (Except.error TTError.invalidStopTimestamp : Except TTError Store)
          else if (liveStartsBetween st iv.start_timestamp t).length ≥ 1 then
            Except.error TTError.invalidStopTimestamp
          else _) = Except.error TTError.invalidStopTimestamp
    by_cases hge : iv.start_timestamp ≥ t
    · rw [if_pos hge]
    · rw [if_neg hge, if_pos (Nat.one_le_iff_ne_zero.mpr
        (by simpa [List.length_eq_zero] using hne))]
  · intro d hd hne
    unfold StopFor stop
    rw [h]
    rw [if_neg (by simp [hd])]
    have hbne : (d != 0) = true := bne_iff_ne.mpr hd
    simp only [hbne, if_true]
    show (if iv.start_timestamp ≥ iv.start_timestamp + d then
            (Except.error TTError.invalidStopTimestamp : Except TTError Store)
          else if (liveStartsBetween st iv.start_timestamp (iv.start_timestamp + d)).length ≥ 1 then
            Except.error TTError.invalidStopTimestamp
          else _) = Except.error TTError.invalidStopTimestamp
    by_cases hge : iv.start_timestamp ≥ iv.start_timestamp + d
    · rw [if_pos hge]
    · rw [if_neg hge, if_pos (Nat.one_le_iff_ne_zero.mpr
        (by simpa [List.length_eq_zero] using hne))]

theorem stop_invalid_timestamp_witness :
    openIntervals openTagStore = [⟨1, 0, 0, 5⟩] ∧
    StopAt openTagStore (some (-5)) 9 = .error .invalidStopTimestamp :=
  ⟨by decide,
   (stop_invalid_timestamp openTagStore ⟨1, 0, 0, 5⟩ 9 (by decide)).1 (-5) (by decide)⟩

theorem filter_pos_iff {α : Type} (l : List α) (p : α → Bool) :
    1 ≤ (l.filter p).length ↔ ∃ x ∈ l, p x = true := by
  rw [Nat.one_le_iff_ne_zero, Ne, List.length_eq_zero, List.filter_eq_nil_iff]
  push_neg
  rfl

theorem closedContaining_pos_iff (st : Store) (t : Int) :
    1 ≤ (closedContaining st t).length ↔
      ∃ r ∈ st.interval_start, hasTomb st r.uuid = false ∧
        ∃ b, stopOf st r.uuid = some b ∧ r.start_timestamp ≤ t ∧ t < b := by
  unfold closedContaining
  rw [filter_pos_iff]
  constructor
  · rintro ⟨r, hr, hp⟩
    refine ⟨r, hr, ?_⟩
    cases hs : stopOf st r.uuid with
    | none => rw [hs] at hp; simp at hp
    | some b =>
      rw [hs] at hp
      simp only [Bool.and_eq_true, Bool.not_eq_true', decide_eq_true_eq] at hp
      exact ⟨hp.1, b, rfl, hp.2.1, hp.2.2⟩
  · rintro ⟨r, hr, htomb, b, hs, h1, h2⟩
    refine ⟨r, hr, ?_⟩
    simp [hs, htomb, h1, h2]

theorem linkTags_interval_start (tags : List String) (st : Store) (u : Nat) (now : Int) :
    (linkTags st u tags now).interval_start = st.interval_start := by
  induction tags generalizing st with
  | nil => rfl
  | cons tg rest ih =>
    show (linkTags _ u rest now).interval_start = _
    rw [ih]

theorem linkTags_interval_stop (tags : List String) (st : Store) (u : Nat) (now : Int) :
    (linkTags st u tags now).interval_stop = st.interval_stop := by
  induction tags generalizing st with
  | nil => rfl
  | cons tg rest ih =>
    show (linkTags _ u rest now).interval_stop = _
    rw [ih]

theorem linkTags_interval_tombstone (tags : List String) (st : Store) (u : Nat)
    (now : Int) :
    (linkTags st u tags now).interval_tombstone = st.interval_tombstone := by
  induction tags generalizing st with
  | nil => rfl
  | cons tg rest ih =>
    show (linkTags _ u rest now).interval_tombstone = _
    rw [ih]

theorem linkTags_tags (tags : List String) (st : Store) (u : Nat) (now : Int) :
    (linkTags st u tags now).tags = st.tags := by
  induction tags generalizing st with
  | nil => rfl
  | cons tg rest ih =>
    show (linkTags _ u rest now).tags = _
    rw [ih]

theorem linkTags_nextUuid (tags : List String) (st : Store) (u : Nat) (now : Int) :
    (linkTags st u tags now).nextUuid = st.nextUuid + tags.length := by
  induction tags generalizing st with
  | nil => rfl
  | cons tg rest ih =>
    show (linkTags _ u rest now).nextUuid = _
    rw [ih]
    show st.nextUuid + 1 + rest.length = _
    rw [List.length_cons]
    omega

theorem linkTags_interval_tags_proj (tags : List String) (st : Store) (u : Nat)
    (now : Int) :
    (linkTags st u tags now).interval_tags.map (fun tr => (tr.interval_start_uuid, tr.tag)) =
      st.interval_tags.map (fun tr => (tr.interval_start_uuid, tr.tag)) ++
        tags.map (fun tg => (u, tg)) := by
  induction tags generalizing st with
  | nil => simp [linkTags]
  | cons tg rest ih =>
    show (linkTags _ u rest now).interval_tags.map _ = _
    rw [ih]
    simp

theorem insertMissingTags_any_mono (names : List String) (table : List TagRow)
    (now : Int) (tg : String) (h : table.any (fun tr => tr.name == tg) = true) :
    (insertMissingTags table names now).any (fun tr => tr.name == tg) = true := by
  induction names generalizing table with
  | nil => exact h
  | cons n rest ih =>
    show (insertMissingTags _ rest now).any _ = true
    refine ih _ ?_
    by_cases hc : (table.any fun tr => tr.name == n) = true
    · simpa [hc] using h
    · simp only [hc]
      simp [List.any_append, h]

theorem insertMissingTags_mem (names : List String) (table : List TagRow) (now : Int)
    (tg : String) (h : tg ∈ names) :
    (insertMissingTags table names now).any (fun tr => tr.name == tg) = true := by
  induction names generalizing table with
  | nil => cases h
  | cons n rest ih =>
    rcases List.mem_cons.mp h with rfl | hmem
    · show (insertMissingTags _ rest now).any _ = true
      apply insertMissingTags_any_mono
      by_cases hc : (table.any fun tr => tr.name == tg) = true
      · simp [hc]
      · simp only [hc]
        simp [List.any_append]
    · show (insertMissingTags _ rest now).any _ = true
      exact ih _ hmem

/-- C6: start(t, tags) returns ExistingOpenInterval when an Open interval
exists (checked first); with no Open interval it returns
InvalidStartTimestamp exactly when t falls inside some Live closed interval
(start_timestamp ≤ t and stop_timestamp > t); otherwise it commits, appending
one IntervalStart with start_timestamp = t, inserting any missing tag names,
and appending one IntervalTag row per supplied tag for the new interval.  The
final conjunct replays scenario S2, whose third operation returns
InvalidStartTimestamp. -/
theorem start_spec (st : Store) (t : Int) (tags : List String) (now : Int) :
    (openIntervals st ≠ [] → Start st t tags now = .error .existingOpenInterval) ∧
    (openIntervals st = [] →
      ((Start st t tags now = .error .invalidStartTimestamp) ↔
        ∃ r ∈ st.interval_start, hasTomb st r.uuid = false ∧
          ∃ b, stopOf st r.uuid = some b ∧ r.start_timestamp ≤ t ∧ t < b) ∧
      (¬(∃ r ∈ st.interval_start, hasTomb st r.uuid = false ∧
           ∃ b, stopOf st r.uuid = some b ∧ r.start_timestamp ≤ t ∧ t < b) →
        ∃ st2, Start st t tags now = .ok st2 ∧
          st2.interval_start = st.interval_start ++ [⟨st.nextId, st.nextUuid, t, now⟩] ∧
          st2.tags = insertMissingTags st.tags tags now ∧
          (∀ tg ∈ tags, st2.tags.any (fun tr => tr.name == tg) = true) ∧
          st2.interval_tags.map (fun tr => (tr.interval_start_uuid, tr.tag)) =
            st.interval_tags.map (fun tr => (tr.interval_start_uuid, tr.tag)) ++
              tags.map (fun tg => (st.nextUuid, tg)))) ∧
    (Start (emptyStore 0) 1645795800 [] 10 = .ok s1Store1 ∧
     StopAt s1Store1 (some 1645799400) 11 = .ok s1Store2 ∧
     Start s1Store2 1645797600 [] 12 = .error .invalidStartTimestamp) := by
  refine ⟨?_, ?_, by decide, by decide, by decide⟩
  · intro h
    unfold Start
    rw [if_pos (show countOpenedInterval st ≥ 1 from List.length_pos.mpr h)]
  · intro hopen
    have hc0 : ¬(countOpenedInterval st ≥ 1) := by
      simp [countOpenedInterval, hopen]
    constructor
    · constructor
      · intro herr
        unfold Start at herr
        rw [if_neg hc0] at herr
        by_cases hcc : (closedContaining st t).length ≥ 1
        · exact (closedContaining_pos_iff st t).mp hcc
        · rw [if_neg hcc] at herr
          cases herr
      · intro hex
        unfold Start
        rw [if_neg hc0, if_pos (show (closedContaining st t).length ≥ 1 from
          (closedContaining_pos_iff st t).mpr hex)]
    · intro hnex
      have hcc : ¬((closedContaining st t).length ≥ 1) := by
        rw [ge_iff_le, closedContaining_pos_iff]
        exact hnex
      refine ⟨linkTags
          { st with
            tags := insertMissingTags st.tags tags now,
            interval_start := st.interval_start ++ [⟨st.nextId, st.nextUuid, t, now⟩],
            nextId := st.nextId + 1,
            nextUuid := st.nextUuid + 1 } st.nextUuid tags now, ?_, ?_, ?_, ?_, ?_⟩
      · unfold Start
        rw [if_neg hc0, if_neg hcc]
      · rw [linkTags_interval_start]
      · rw [linkTags_tags]
      · intro tg htg
        rw [linkTags_tags]
        exact insertMissingTags_mem tags st.tags now tg htg
      · rw [linkTags_interval_tags_proj]

theorem start_spec_witness :
    openIntervals s1Store2 = [] ∧
    (Start s1Store2 1645797600 [] 12 = .error .invalidStartTimestamp ↔
      ∃ r ∈ s1Store2.interval_start, hasTomb s1Store2 r.uuid = false ∧
        ∃ b, stopOf s1Store2 r.uuid = some b ∧
          r.start_timestamp ≤ 1645797600 ∧ 1645797600 < b) :=
  ⟨by decide, ((start_spec s1Store2 1645797600 [] 12).2.1 (by decide)).1⟩


theorem listPred_iff (st : Store) (since untilT : Int) (r : StartRow) :
    listPred st since untilT r = true ↔
      hasTomb st r.uuid = false ∧
      ((since ≤ r.start_timestamp ∧ r.start_timestamp < untilT) ∨
       (∃ b, stopOf st r.uuid = some b ∧ since ≤ b ∧ b < untilT) ∨
       stopOf st r.uuid = none) := by
  unfold listPred
  cases hs : stopOf st r.uuid with
  | none =>
    simp [hs]
  | some b =>
    simp [hs]
    tauto

/-- C7: list(since, until) returns exactly the Live intervals satisfying
(start_timestamp in the window) or (stop_timestamp in the window) or
stop_timestamp IS NULL, sorted ascending by start_timestamp, each carrying
exactly its Effective tags (IntervalTags not shadowed by an
IntervalTagTombstone). -/
theorem list_spec (st : Store) (since untilT : Int) :
    (∀ ti, ti ∈ ListIntervals st since untilT ↔
      ∃ r ∈ st.interval_start,
        hasTomb st r.uuid = false ∧
        ((since ≤ r.start_timestamp ∧ r.start_timestamp < untilT) ∨
         (∃ b, stopOf st r.uuid = some b ∧ since ≤ b ∧ b < untilT) ∨
         stopOf st r.uuid = none) ∧
        ti = ⟨r.id, r.uuid, r.start_timestamp, stopOf st r.uuid,
              getIntervalTags st r.uuid⟩) ∧
    (ListIntervals st since untilT).Pairwise
      (fun a b => a.start_timestamp ≤ b.start_timestamp) ∧
    (∀ ti ∈ ListIntervals st since untilT,
      ti.tags = (effectiveTagRows st ti.uuid).map (fun tr => tr.tag)) := by
  refine ⟨?_, ?_, ?_⟩
  · intro ti
    unfold ListIntervals
    rw [List.mem_map]
    constructor
    · rintro ⟨r, hr, rfl⟩
      rw [(List.perm_insertionSort startLE _).mem_iff, List.mem_filter] at hr
      obtain ⟨hmem, hpred⟩ := hr
      obtain ⟨htomb, hdisj⟩ := (listPred_iff st since untilT r).mp hpred
      exact ⟨r, hmem, htomb, hdisj, rfl⟩
    · rintro ⟨r, hmem, htomb, hdisj, rfl⟩
      refine ⟨r, ?_, rfl⟩
      rw [(List.perm_insertionSort startLE _).mem_iff, List.mem_filter]
      exact ⟨hmem, (listPred_iff st since untilT r).mpr ⟨htomb, hdisj⟩⟩
  · unfold ListIntervals
    refine List.Pairwise.map _ ?_ (List.sorted_insertionSort startLE _)
    intro a b hab
    exact hab
  · intro ti hti
    unfold ListIntervals at hti
    rw [List.mem_map] at hti
    obtain ⟨r, _, rfl⟩ := hti
    rfl


/-- C2: scenario S5.  Replica A records one closed tagged interval, replica B
a non-overlapping one; after the sync sequence A.sync, B.sync, A.sync through
the same relay, list over a range covering all data returns, on both
replicas, the same two intervals with the per-replica id projected out, each
carrying its original Effective tag, and each sync round succeeds. -/
theorem sync_convergence_s5 :
    Sync s5A emptyRelay 200 = .ok s5Round1 ∧
    Sync s5B s5Round1.2 201 = .ok s5Round2 ∧
    Sync s5Round1.1 s5Round2.2 202 = .ok s5Round3 ∧
    (ListIntervals s5Round3.1 (-36000) 36000).map projectId =
      (ListIntervals s5Round2.1 (-36000) 36000).map projectId ∧
    (ListIntervals s5Round3.1 (-36000) 36000).map projectId =
      [(0, -14400, some (-10800), ["tag1"]), (1000, -7200, some (-3600), ["tag2"])] := by
  refine ⟨by decide, by decide, by decide, by decide, by decide⟩


theorem stopOf_append_of_some {st st2 : Store} {row : StopRow}
    (h : st2.interval_stop = st.interval_stop ++ [row]) {u : Nat} {b : Int}
    (hb : stopOf st u = some b) : stopOf st2 u = some b := by
  unfold stopOf at hb ⊢
  rw [h, List.find?_append]
  cases hf : st.interval_stop.find? (fun r => r.start_uuid == u) with
  | none => rw [hf] at hb; simp at hb
  | some s =>
    rw [hf] at hb
    simp at hb ⊢
    exact hb

theorem stopOf_append_of_none {st st2 : Store} {row : StopRow}
    (h : st2.interval_stop = st.interval_stop ++ [row]) {u : Nat}
    (hn : stopOf st u = none) :
    stopOf st2 u = if row.start_uuid == u then some row.stop_timestamp else none := by
  unfold stopOf at hn ⊢
  rw [h, List.find?_append]
  cases hf : st.interval_stop.find? (fun r => r.start_uuid == u) with
  | some s => rw [hf] at hn; simp at hn
  | none =>
    cases hbe : (row.start_uuid == u) with
    | true => simp [List.find?, hbe]
    | false => simp [List.find?, hbe]

theorem hasTomb_tombs_append {st st2 : Store} {row : TombstoneRow}
    (h : st2.interval_tombstone = st.interval_tombstone ++ [row]) (u : Nat) :
    hasTomb st2 u = (hasTomb st u || (row.start_uuid == u)) := by
  unfold hasTomb
  rw [h, List.any_append]
  simp [List.any]

theorem stopOf_none_of_fresh (st : Store) (u : Nat)
    (h : ∀ s ∈ st.interval_stop, s.start_uuid ≠ u) : stopOf st u = none := by
  unfold stopOf
  rw [List.find?_eq_none.mpr]
  · rfl
  · intro s hs
    simp [h s hs]

theorem hasTomb_false_of_fresh (st : Store) (u : Nat)
    (h : ∀ tb ∈ st.interval_tombstone, tb.start_uuid ≠ u) : hasTomb st u = false := by
  unfold hasTomb
  rw [← Bool.not_eq_true, List.any_eq_true]
  rintro ⟨tb, htb, hbe⟩
  exact h tb htb (by simpa using hbe)

theorem length_filter_mono {α : Type} (l : List α) (p q : α → Bool)
    (h : ∀ a ∈ l, p a = true → q a = true) :
    (l.filter p).length ≤ (l.filter q).length := by
  induction l with
  | nil => simp
  | cons a rest ih =>
    have ihr := ih (fun x hx hpx => h x (List.mem_cons_of_mem a hx) hpx)
    by_cases hp : p a = true
    · have hq := h a (List.mem_cons_self a rest) hp
      simp only [List.filter_cons, hp, hq, if_true, List.length_cons]
      exact Nat.succ_le_succ ihr
    · simp only [List.filter_cons, Bool.not_eq_true] at *
      rw [hp]
      by_cases hq : q a = true
      · rw [hq]
        simp only [List.length_cons]
        exact le_trans ihr (Nat.le_succ _)
      · simp only [Bool.not_eq_true] at hq
        rw [hq]
        exact ihr

theorem InvFull_transport {st st2 : Store}
    (hstart : st2.interval_start = st.interval_start)
    (hstop : st2.interval_stop = st.interval_stop)
    (htomb : st2.interval_tombstone = st.interval_tombstone)
    (hn : st.nextUuid ≤ st2.nextUuid) (h : InvFull st) : InvFull st2 := by
  have hso : ∀ u, stopOf st2 u = stopOf st u := stopOf_eq_of_stops hstop
  have hht : ∀ u, hasTomb st2 u = hasTomb st u := hasTomb_eq_of_tombs htomb
  have hlc : ∀ r b, LiveClosed st2 r b ↔ LiveClosed st r b := by
    intro r b
    unfold LiveClosed
    rw [hstart, hso, hht]
  have hopeneq : openIntervals st2 = openIntervals st := by
    unfold openIntervals isOpenRow
    rw [hstart]
    congr 1
    funext r
    rw [hso, hht]
  refine ⟨?_, ?_, ?_, ?_, ?_, ?_, ?_⟩
  · unfold countOpenedInterval
    rw [hopeneq]
    exact h.open_le_one
  · intro r b hc
    exact h.start_lt_stop r b ((hlc r b).mp hc)
  · intro r1 b1 r2 b2 h1 h2 hne
    exact h.no_overlap r1 b1 r2 b2 ((hlc _ _).mp h1) ((hlc _ _).mp h2) hne
  · intro o ho r b hc
    rw [hopeneq] at ho
    exact h.open_not_in_closed o ho r b ((hlc _ _).mp hc)
  · intro r hr
    rw [hstart] at hr
    exact lt_of_lt_of_le (h.start_uuid_lt r hr) hn
  · intro s hs
    rw [hstop] at hs
    exact lt_of_lt_of_le (h.stop_uuid_lt s hs) hn
  · intro tb htb
    rw [htomb] at htb
    exact lt_of_lt_of_le (h.tomb_uuid_lt tb htb) hn

theorem invFull_insert_open {st st2 : Store} {newRow : StartRow}
    (hA : st2.interval_start = st.interval_start ++ [newRow])
    (hB : st2.interval_stop = st.interval_stop)
    (hC : st2.interval_tombstone = st.interval_tombstone)
    (hNlt : st.nextUuid < st2.nextUuid)
    (hUuid : newRow.uuid = st.nextUuid)
    (hopenNil : openIntervals st = [])
    (hnc : ∀ r b, LiveClosed st r b →
      ¬(r.start_timestamp ≤ newRow.start_timestamp ∧ newRow.start_timestamp < b))
    (h : InvFull st) : InvFull st2 := by
  have hso : ∀ u, stopOf st2 u = stopOf st u := stopOf_eq_of_stops hB
  have hht : ∀ u, hasTomb st2 u = hasTomb st u := hasTomb_eq_of_tombs hC
  have hnewStop : stopOf st newRow.uuid = none := by
    apply stopOf_none_of_fresh
    intro s hs
    rw [hUuid]
    exact Nat.ne_of_lt (h.stop_uuid_lt s hs)
  have hnewTomb : hasTomb st newRow.uuid = false := by
    apply hasTomb_false_of_fresh
    intro tb htb
    rw [hUuid]
    exact Nat.ne_of_lt (h.tomb_uuid_lt tb htb)
  have hopenrow2 : ∀ r, isOpenRow st2 r = isOpenRow st r := by
    intro r
    unfold isOpenRow
    rw [hso, hht]
  have hopen2 : openIntervals st2 = [newRow] := by
    unfold openIntervals
    rw [hA, List.filter_append]
    have e1 : st.interval_start.filter (isOpenRow st2) = [] := by
      rw [List.filter_eq_nil_iff]
      intro a ha hopenA
      rw [hopenrow2] at hopenA
      have : a ∈ openIntervals st := List.mem_filter.mpr ⟨ha, hopenA⟩
      rw [hopenNil] at this
      cases this
    rw [e1]
    have e2 : isOpenRow st2 newRow = true := by
      rw [hopenrow2]
      unfold isOpenRow
      rw [hnewStop, hnewTomb]
      rfl
    simp [e2]
  have hlc2 : ∀ r b, LiveClosed st2 r b → LiveClosed st r b := by
    rintro r b ⟨hmem, htmb, hsb⟩
    rw [hA] at hmem
    rw [hht] at htmb
    rw [hso] at hsb
    rcases List.mem_append.mp hmem with hm | hm
    · exact ⟨hm, htmb, hsb⟩
    · have : r = newRow := by simpa using hm
      subst this
      rw [hnewStop] at hsb
      cases hsb
  refine ⟨?_, ?_, ?_, ?_, ?_, ?_, ?_⟩
  · unfold countOpenedInterval
    rw [hopen2]
    exact le_refl 1
  · intro r b hc
    exact h.start_lt_stop r b (hlc2 r b hc)
  · intro r1 b1 r2 b2 h1 h2 hne
    exact h.no_overlap r1 b1 r2 b2 (hlc2 _ _ h1) (hlc2 _ _ h2) hne
  · intro o ho r b hc
    rw [hopen2] at ho
    have : o = newRow := by simpa using ho
    subst this
    exact hnc r b (hlc2 r b hc)
  · intro r hr
    rw [hA] at hr
    rcases List.mem_append.mp hr with hm | hm
    · exact lt_trans (h.start_uuid_lt r hm) hNlt
    · have : r = newRow := by simpa using hm
      subst this
      rw [hUuid]
      exact hNlt
  · intro s hs
    rw [hB] at hs
    exact lt_trans (h.stop_uuid_lt s hs) hNlt
  · intro tb htb
    rw [hC] at htb
    exact lt_trans (h.tomb_uuid_lt tb htb) hNlt


theorem invFull_close_open {st st2 : Store} {iv : StartRow} {tv now : Int}
    (hopen1 : openIntervals st = [iv])
    (hlt : iv.start_timestamp < tv)
    (hbetween : liveStartsBetween st iv.start_timestamp tv = [])
    (hA : st2.interval_start = st.interval_start)
    (hB : st2.interval_stop = st.interval_stop ++ [⟨st.nextUuid, iv.uuid, tv, now⟩])
    (hC : st2.interval_tombstone = st.interval_tombstone)
    (hN : st2.nextUuid = st.nextUuid + 1)
    (h : InvFull st) : InvFull st2 := by
  have hivmem : iv ∈ openIntervals st := by
    rw [hopen1]
    exact List.mem_singleton.mpr rfl
  obtain ⟨hivstart, hivopen⟩ := List.mem_filter.mp hivmem
  have hstopiv : stopOf st iv.uuid = none := by
    have := (Bool.and_eq_true_iff.mp hivopen).1
    exact Option.isNone_iff_eq_none.mp this
  have htombiv : hasTomb st iv.uuid = false := by
    have := (Bool.and_eq_true_iff.mp hivopen).2
    simpa using this
  have hht : ∀ u, hasTomb st2 u = hasTomb st u := hasTomb_eq_of_tombs hC
  have hso_some : ∀ u b, stopOf st u = some b → stopOf st2 u = some b :=
    fun u b hb => stopOf_append_of_some hB hb
  have hso_new : ∀ u, stopOf st u = none →
      stopOf st2 u = if iv.uuid == u then some tv else none :=
    fun u hu => stopOf_append_of_none hB hu
  have hbet : ∀ a ∈ st.interval_start, hasTomb st a.uuid = false →
      iv.start_timestamp < a.start_timestamp → tv ≤ a.start_timestamp := by
    intro a ha htmb hlt2
    by_contra hcon
    push_neg at hcon
    have hmem : a ∈ liveStartsBetween st iv.start_timestamp tv := by
      apply List.mem_filter.mpr
      refine ⟨ha, ?_⟩
      simp [hlt2, hcon, htmb]
    rw [hbetween] at hmem
    cases hmem
  have hopen2 : openIntervals st2 = [] := by
    unfold openIntervals
    rw [hA, List.filter_eq_nil_iff]
    intro a ha hopenA
    unfold isOpenRow at hopenA
    rw [hht] at hopenA
    obtain ⟨hiso, htmb⟩ := Bool.and_eq_true_iff.mp hopenA
    have hsnone2 : stopOf st2 a.uuid = none := Option.isNone_iff_eq_none.mp hiso
    have hsnone : stopOf st a.uuid = none := by
      cases hs : stopOf st a.uuid with
      | none => rfl
      | some b =>
        rw [hso_some a.uuid b hs] at hsnone2
        cases hsnone2
    have haopen : a ∈ openIntervals st := by
      apply List.mem_filter.mpr
      refine ⟨ha, ?_⟩
      unfold isOpenRow
      rw [hsnone]
      simpa using htmb
    rw [hopen1] at haopen
    have : a = iv := by simpa using haopen
    subst this
    rw [hso_new a.uuid hsnone] at hsnone2
    simp at hsnone2
  have hlc2 : ∀ r b, LiveClosed st2 r b → LiveClosed st r b ∨ (r = iv ∧ b = tv) := by
    rintro r b ⟨hmem, htmb, hsb⟩
    rw [hA] at hmem
    rw [hht] at htmb
    cases hs : stopOf st r.uuid with
    | some b0 =>
      rw [hso_some r.uuid b0 hs] at hsb
      have : b0 = b := by simpa using hsb
      subst this
      exact Or.inl ⟨hmem, htmb, hs⟩
    | none =>
      rw [hso_new r.uuid hs] at hsb
      by_cases hbe : (iv.uuid == r.uuid) = true
      · rw [if_pos hbe] at hsb
        have hbv : b = tv := by simpa using hsb.symm
        have hropen : r ∈ openIntervals st := by
          apply List.mem_filter.mpr
          refine ⟨hmem, ?_⟩
          unfold isOpenRow
          rw [hs]
          simpa using htmb
        rw [hopen1] at hropen
        have : r = iv := by simpa using hropen
        exact Or.inr ⟨this, hbv⟩
      · rw [if_neg hbe] at hsb
        cases hsb
  have hmix : ∀ r1 b1, LiveClosed st r1 b1 → r1.uuid ≠ iv.uuid →
      b1 ≤ iv.start_timestamp ∨ tv ≤ r1.start_timestamp := by
    intro r1 b1 hc hne
    have hnin := h.open_not_in_closed iv hivmem r1 b1 hc
    by_cases hle : r1.start_timestamp ≤ iv.start_timestamp
    · left
      by_contra hgt
      push_neg at hgt
      exact hnin ⟨hle, lt_of_le_of_lt (le_refl _) (lt_of_lt_of_le hgt (le_refl _))⟩
    · right
      push_neg at hle
      exact hbet r1 hc.1 hc.2.1 hle
  refine ⟨?_, ?_, ?_, ?_, ?_, ?_, ?_⟩
  · unfold countOpenedInterval
    rw [hopen2]
    exact Nat.zero_le 1
  · intro r b hc
    rcases hlc2 r b hc with hold | ⟨hr, hb⟩
    · exact h.start_lt_stop r b hold
    · subst hr
      subst hb
      exact hlt
  · intro r1 b1 r2 b2 h1 h2 hne
    rcases hlc2 r1 b1 h1 with ho1 | ⟨hr1, hb1⟩ <;>
      rcases hlc2 r2 b2 h2 with ho2 | ⟨hr2, hb2⟩
    · exact h.no_overlap r1 b1 r2 b2 ho1 ho2 hne
    · subst hr2
      subst hb2
      exact hmix r1 b1 ho1 hne
    · subst hr1
      subst hb1
      rcases hmix r2 b2 ho2 (fun he => hne he.symm) with hx | hx
      · exact Or.inr hx
      · exact Or.inl hx
    · subst hr1
      subst hr2
      exact absurd rfl hne
  · intro o ho r b hc
    rw [hopen2] at ho
    cases ho
  · intro r hr
    rw [hA] at hr
    rw [hN]
    exact lt_trans (h.start_uuid_lt r hr) (Nat.lt_succ_self _)
  · intro s hs
    rw [hB] at hs
    rw [hN]
    rcases List.mem_append.mp hs with hm | hm
    · exact lt_trans (h.stop_uuid_lt s hm) (Nat.lt_succ_self _)
    · have : s = ⟨st.nextUuid, iv.uuid, tv, now⟩ := by simpa using hm
      subst this
      show iv.uuid < st.nextUuid + 1
      exact lt_trans (h.start_uuid_lt iv hivstart) (Nat.lt_succ_self _)
  · intro tb htb
    rw [hC] at htb
    rw [hN]
    exact lt_trans (h.tomb_uuid_lt tb htb) (Nat.lt_succ_self _)

theorem invFull_add_tomb {st st2 : Store} {row : TombstoneRow}
    (hA : st2.interval_start = st.interval_start)
    (hB : st2.interval_stop = st.interval_stop)
    (hC : st2.interval_tombstone = st.interval_tombstone ++ [row])
    (hrow : row.start_uuid < st.nextUuid)
    (hN : st2.nextUuid = st.nextUuid + 1)
    (h : InvFull st) : InvFull st2 := by
  have hso : ∀ u, stopOf st2 u = stopOf st u := stopOf_eq_of_stops hB
  have hht : ∀ u, hasTomb st2 u = (hasTomb st u || (row.start_uuid == u)) :=
    hasTomb_tombs_append hC
  have htmono : ∀ u, hasTomb st2 u = false → hasTomb st u = false := by
    intro u hu
    rw [hht] at hu
    exact (Bool.or_eq_false_iff.mp hu).1
  have hopenmono : ∀ r, isOpenRow st2 r = true → isOpenRow st r = true := by
    intro r hr
    unfold isOpenRow at hr ⊢
    rw [hso] at hr
    obtain ⟨h1, h2⟩ := Bool.and_eq_true_iff.mp hr
    rw [h1]
    simp only [Bool.not_eq_true'] at h2
    rw [htmono _ h2]
    rfl
  have hlc2 : ∀ r b, LiveClosed st2 r b → LiveClosed st r b := by
    rintro r b ⟨hmem, htmb, hsb⟩
    rw [hA] at hmem
    rw [hso] at hsb
    exact ⟨hmem, htmono _ htmb, hsb⟩
  refine ⟨?_, ?_, ?_, ?_, ?_, ?_, ?_⟩
  · unfold countOpenedInterval openIntervals
    rw [hA]
    exact le_trans (length_filter_mono _ _ _ (fun a _ ha => hopenmono a ha)) h.open_le_one
  · intro r b hc
    exact h.start_lt_stop r b (hlc2 r b hc)
  · intro r1 b1 r2 b2 h1 h2 hne
    exact h.no_overlap r1 b1 r2 b2 (hlc2 _ _ h1) (hlc2 _ _ h2) hne
  · intro o ho r b hc
    obtain ⟨homem, hoopen⟩ := List.mem_filter.mp ho
    rw [hA] at homem
    have : o ∈ openIntervals st :=
      List.mem_filter.mpr ⟨homem, hopenmono o hoopen⟩
    exact h.open_not_in_closed o this r b (hlc2 r b hc)
  · intro r hr
    rw [hA] at hr
    rw [hN]
    exact lt_trans (h.start_uuid_lt r hr) (Nat.lt_succ_self _)
  · intro s hs
    rw [hB] at hs
    rw [hN]
    exact lt_trans (h.stop_uuid_lt s hs) (Nat.lt_succ_self _)
  · intro tb htb
    rw [hC] at htb
    rw [hN]
    rcases List.mem_append.mp htb with hm | hm
    · exact lt_trans (h.tomb_uuid_lt tb hm) (Nat.lt_succ_self _)
    · have : tb = row := by simpa using hm
      subst this
      exact lt_trans hrow (Nat.lt_succ_self _)

theorem continueOverlap_pos_iff (st : Store) (t : Int) :
    1 ≤ (continueOverlap st t).length ↔
      ∃ r ∈ st.interval_start, hasTomb st r.uuid = false ∧
        ∃ b, stopOf st r.uuid = some b ∧ r.start_timestamp ≤ t ∧ t < b := by
  unfold continueOverlap
  rw [filter_pos_iff]
  constructor
  · rintro ⟨r, hr, hp⟩
    refine ⟨r, hr, ?_⟩
    cases hs : stopOf st r.uuid with
    | none => rw [hs] at hp; simp at hp
    | some b =>
      rw [hs] at hp
      simp only [Bool.and_eq_true_iff, Bool.not_eq_true', decide_eq_true_eq] at hp
      exact ⟨hp.1.1, b, rfl, hp.1.2, hp.2⟩
  · rintro ⟨r, hr, htomb, b, hs, h1, h2⟩
    refine ⟨r, hr, ?_⟩
    simp [hs, htomb, h1, h2]

theorem tagLoop_ok_fields (tags : List String) (st : Store) (u : Nat) (now : Int)
    (st2 : Store) (hok : tagLoop st u tags now = .ok st2) :
    st2.interval_start = st.interval_start ∧ st2.interval_stop = st.interval_stop ∧
      st2.interval_tombstone = st.interval_tombstone ∧ st.nextUuid ≤ st2.nextUuid := by
  induction tags generalizing st with
  | nil =>
    unfold tagLoop at hok
    injection hok with hst2
    subst hst2
    exact ⟨rfl, rfl, rfl, le_refl _⟩
  | cons tg rest ih =>
    unfold tagLoop at hok
    by_cases hc : ((effectiveTagRows st u).filter (fun tr => tr.tag == tg)).length ≥ 1
    · rw [if_pos hc] at hok
      cases hok
    · rw [if_neg hc] at hok
      obtain ⟨hA, hB, hC, hN⟩ := ih _ hok
      exact ⟨hA, hB, hC, le_trans (Nat.le_succ _) hN⟩

theorem untagInsert_fields (rows : List IntervalTagRow) (acc : Store) (now : Int) :
    (untagInsert acc rows now).interval_start = acc.interval_start ∧
    (untagInsert acc rows now).interval_stop = acc.interval_stop ∧
    (untagInsert acc rows now).interval_tombstone = acc.interval_tombstone ∧
    acc.nextUuid ≤ (untagInsert acc rows now).nextUuid := by
  induction rows generalizing acc with
  | nil => exact ⟨rfl, rfl, rfl, le_refl _⟩
  | cons tr rest ih =>
    obtain ⟨hA, hB, hC, hN⟩ := ih
      { acc with
        interval_tags_tombstone :=
          acc.interval_tags_tombstone ++ [⟨acc.nextUuid, tr.uuid, now⟩],
        nextUuid := acc.nextUuid + 1 }
    exact ⟨hA, hB, hC, le_trans (Nat.le_succ _) hN⟩

theorem untagLoop_fields (tags : List String) (st : Store) (id : Nat) (now : Int) :
    (untagLoop st id tags now).interval_start = st.interval_start ∧
    (untagLoop st id tags now).interval_stop = st.interval_stop ∧
    (untagLoop st id tags now).interval_tombstone = st.interval_tombstone ∧
    st.nextUuid ≤ (untagLoop st id tags now).nextUuid := by
  induction tags generalizing st with
  | nil => exact ⟨rfl, rfl, rfl, le_refl _⟩
  | cons tg rest ih =>
    obtain ⟨hA, hB, hC, hN⟩ := ih (untagInsert st (toDelete st id tg) now)
    obtain ⟨uA, uB, uC, uN⟩ := untagInsert_fields (toDelete st id tg) st now
    exact ⟨hA.trans uA, hB.trans uB, hC.trans uC, le_trans uN hN⟩

theorem invFull_start {st st2 : Store} {t now : Int} {tags : List String}
    (hok : Start st t tags now = .ok st2) (h : InvFull st) : InvFull st2 := by
  unfold Start at hok
  by_cases h1 : countOpenedInterval st ≥ 1
  · rw [if_pos h1] at hok
    cases hok
  rw [if_neg h1] at hok
  by_cases h2 : (closedContaining st t).length ≥ 1
  · rw [if_pos h2] at hok
    cases hok
  rw [if_neg h2] at hok
  injection hok with hst2
  have hA : st2.interval_start =
      st.interval_start ++ [(⟨st.nextId, st.nextUuid, t, now⟩ : StartRow)] := by
    rw [← hst2, linkTags_interval_start]
  have hB : st2.interval_stop = st.interval_stop := by
    rw [← hst2, linkTags_interval_stop]
  have hC : st2.interval_tombstone = st.interval_tombstone := by
    rw [← hst2, linkTags_interval_tombstone]
  have hNlt : st.nextUuid < st2.nextUuid := by
    rw [← hst2, linkTags_nextUuid]
    show st.nextUuid < st.nextUuid + 1 + tags.length
    omega
  have hopenNil : openIntervals st = [] := by
    apply List.length_eq_zero.mp
    have : countOpenedInterval st = 0 := by omega
    exact this
  have hnc : ∀ r b, LiveClosed st r b → ¬(r.start_timestamp ≤ t ∧ t < b) := by
    intro r b hc hcon
    apply h2
    rw [ge_iff_le, closedContaining_pos_iff]
    exact ⟨r, hc.1, hc.2.1, b, hc.2.2, hcon.1, hcon.2⟩
  exact invFull_insert_open hA hB hC hNlt rfl hopenNil hnc h

theorem invFull_continue {st st2 : Store} {t now : Int} {id : Option Nat}
    (hok : Continue st t id now = .ok st2) (h : InvFull st) : InvFull st2 := by
  unfold Continue at hok
  by_cases h1 : countOpenedInterval st ≥ 1
  · rw [if_pos h1] at hok
    cases hok
  rw [if_neg h1] at hok
  by_cases h2 : (continueOverlap st t).length ≥ 1
  · rw [if_pos h2] at hok
    cases hok
  rw [if_neg h2] at hok
  rcases hres : resolvePrev st id with _ | ⟨u0, tags2⟩
  · rw [hres] at hok
    cases hok
  rw [hres] at hok
  injection hok with hst2
  have hA : st2.interval_start =
      st.interval_start ++ [(⟨st.nextId, st.nextUuid, t, now⟩ : StartRow)] := by
    rw [← hst2, linkTags_interval_start]
  have hB : st2.interval_stop = st.interval_stop := by
    rw [← hst2, linkTags_interval_stop]
  have hC : st2.interval_tombstone = st.interval_tombstone := by
    rw [← hst2, linkTags_interval_tombstone]
  have hNlt : st.nextUuid < st2.nextUuid := by
    rw [← hst2, linkTags_nextUuid]
    show st.nextUuid < st.nextUuid + 1 + tags2.length
    omega
  have hopenNil : openIntervals st = [] := by
    apply List.length_eq_zero.mp
    have : countOpenedInterval st = 0 := by omega
    exact this
  have hnc : ∀ r b, LiveClosed st r b → ¬(r.start_timestamp ≤ t ∧ t < b) := by
    intro r b hc hcon
    apply h2
    rw [ge_iff_le, continueOverlap_pos_iff]
    exact ⟨r, hc.1, hc.2.1, b, hc.2.2, hcon.1, hcon.2⟩
  exact invFull_insert_open hA hB hC hNlt rfl hopenNil hnc h

theorem invFull_stop {st st2 : Store} {t : Option Int} {d now : Int}
    (hok : stop st t d now = .ok st2) (h : InvFull st) : InvFull st2 := by
  unfold stop at hok
  by_cases hparam : ((t.isSome && d != 0) || (t.isNone && d == 0)) = true
  · rw [if_pos hparam] at hok
    cases hok
  rw [if_neg hparam] at hok
  rcases hoi : openIntervals st with _ | ⟨iv, rest⟩
  · rw [hoi] at hok
    cases hok
  rw [hoi] at hok
  replace hok : (if rest.length + 1 > 1 then
      (.error .multipleOpenInterval : Except TTError Store)
    else if iv.start_timestamp ≥
        (if (d != 0) = true then iv.start_timestamp + d else t.getD 0) then
      .error .invalidStopTimestamp
    else if (liveStartsBetween st iv.start_timestamp
        (if (d != 0) = true then iv.start_timestamp + d else t.getD 0)).length ≥ 1 then
      .error .invalidStopTimestamp
    else .ok { st with
      interval_stop := st.interval_stop ++ [⟨st.nextUuid, iv.uuid,
        (if (d != 0) = true then iv.start_timestamp + d else t.getD 0), now⟩],
      nextUuid := st.nextUuid + 1 }) = .ok st2 := hok
  by_cases hcnt : rest.length + 1 > 1
  · rw [if_pos hcnt] at hok
    cases hok
  rw [if_neg hcnt] at hok
  have hrest : rest = [] := by
    rw [← List.length_eq_zero]
    omega
  subst hrest
  generalize htv : (if (d != 0) = true then iv.start_timestamp + d else t.getD 0) = tv at hok
  by_cases hge : iv.start_timestamp ≥ tv
  · rw [if_pos hge] at hok
    cases hok
  rw [if_neg hge] at hok
  by_cases hbw : (liveStartsBetween st iv.start_timestamp tv).length ≥ 1
  · rw [if_pos hbw] at hok
    cases hok
  rw [if_neg hbw] at hok
  injection hok with hst2
  push_neg at hge
  have hbetween : liveStartsBetween st iv.start_timestamp tv = [] := by
    rw [← List.length_eq_zero]
    omega
  exact invFull_close_open hoi hge hbetween (by rw [← hst2]) (by rw [← hst2])
    (by rw [← hst2]) (by rw [← hst2]) h

theorem invFull_delete {st st2 : Store} {id : Nat} {now : Int}
    (hok : Delete st id now = .ok st2) (h : InvFull st) : InvFull st2 := by
  unfold Delete at hok
  rcases hf : st.interval_start.find? (fun r => r.id == id) with _ | r
  · rw [hf] at hok
    injection hok with hst2
    exact hst2 ▸ h
  rw [hf] at hok
  replace hok : (if (st.interval_tombstone.any fun tb => tb.start_uuid == r.uuid) = true
      then (.ok st : Except TTError Store)
      else .ok { st with
        interval_tombstone := st.interval_tombstone ++ [⟨st.nextUuid, r.uuid, now⟩],
        nextUuid := st.nextUuid + 1 }) = .ok st2 := hok
  by_cases hex : (st.interval_tombstone.any fun tb => tb.start_uuid == r.uuid) = true
  · rw [if_pos hex] at hok
    injection hok with hst2
    exact hst2 ▸ h
  · rw [if_neg hex] at hok
    injection hok with hst2
    have hrmem : r ∈ st.interval_start := List.mem_of_find?_eq_some hf
    exact invFull_add_tomb (by rw [← hst2]) (by rw [← hst2]) (by rw [← hst2])
      (h.start_uuid_lt r hrmem) (by rw [← hst2]) h

theorem invFull_tag {st st2 : Store} {id : Nat} {now : Int} {tags : List String}
    (hok : Tag st id tags now = .ok st2) (h : InvFull st) : InvFull st2 := by
  unfold Tag at hok
  rcases hf : (liveStarts st).find? (fun r => r.id == id) with _ | r
  · rw [hf] at hok
    cases hok
  rw [hf] at hok
  obtain ⟨hA, hB, hC, hN⟩ := tagLoop_ok_fields tags st r.uuid now st2 hok
  exact InvFull_transport hA hB hC hN h

theorem invFull_untag {st st2 : Store} {id : Nat} {now : Int} {tags : List String}
    (hok : Untag st id tags now = .ok st2) (h : InvFull st) : InvFull st2 := by
  unfold Untag at hok
  rcases hf : (liveStarts st).find? (fun r => r.id == id) with _ | r
  · rw [hf] at hok
    cases hok
  rw [hf] at hok
  injection hok with hst2
  obtain ⟨hA, hB, hC, hN⟩ := untagLoop_fields tags st id now
  rw [hst2] at hA hB hC hN
  exact InvFull_transport hA hB hC hN h

theorem invFull_reachable {st : Store} (h : Reachable st) : InvFull st := by
  induction h with
  | init seed =>
    refine ⟨?_, ?_, ?_, ?_, ?_, ?_, ?_⟩
    · exact Nat.zero_le 1
    · rintro r b ⟨hmem, _, _⟩
      cases hmem
    · rintro r1 b1 r2 b2 ⟨hm, _, _⟩ _ _
      cases hm
    · intro o ho
      cases ho
    · intro r hr
      cases hr
    · intro s hs
      cases hs
    · intro tb htb
      cases htb
  | step op now hre hok ih =>
    cases op with
    | opStart t tags => exact invFull_start hok ih
    | opStopAt t => exact invFull_stop (show stop _ t 0 _ = .ok _ from hok) ih
    | opStopFor d => exact invFull_stop (show stop _ none d _ = .ok _ from hok) ih
    | opContinue t id => exact invFull_continue hok ih
    | opTag id tags => exact invFull_tag hok ih
    | opUntag id tags => exact invFull_untag hok ih
    | opDelete id => exact invFull_delete hok ih

/-- C1: every local store reachable through committed Interval-Engine
operations (start, stop-at, stop-for, continue, tag, untag, delete) satisfies
the global timeline invariants after each successful commit: at most one Open
interval exists, every Live closed interval has start_timestamp <
stop_timestamp, and no two Live closed intervals with distinct uuids overlap
(one of them stops at or before the other starts). -/
theorem reachable_timeline_invariants (st : Store) (h : Reachable st) :
    countOpenedInterval st ≤ 1 ∧
    (∀ r b, LiveClosed st r b → r.start_timestamp < b) ∧
    (∀ r1 b1 r2 b2, LiveClosed st r1 b1 → LiveClosed st r2 b2 →
      r1.uuid ≠ r2.uuid → b1 ≤ r2.start_timestamp ∨ b2 ≤ r1.start_timestamp) :=
  ⟨(invFull_reachable h).open_le_one, (invFull_reachable h).start_lt_stop,
   (invFull_reachable h).no_overlap⟩

theorem reachable_timeline_invariants_witness :
    Reachable s1Store2 ∧ countOpenedInterval s1Store2 ≤ 1 := by
  have h1 : Reachable s1Store1 :=
    Reachable.step (.opStart 1645795800 []) 10 (Reachable.init 0) (by decide)
  have h2 : Reachable s1Store2 :=
    Reachable.step (.opStopAt (some 1645799400)) 11 h1 (by decide)
  exact ⟨h2, (reachable_timeline_invariants s1Store2 h2).1⟩


end TT
